import Mathlib

/-!
Verification of the scrapper pipeline (`src/scrapper.py`): bounded link
collection (`Crawler._extract_url` / `Crawler.find_articles`), splitting of
extracted PDF text into body and bibliography (`HTMLParser._fill_article_with_text`),
page-count derivation from the metadata block
(`HTMLParser._fill_article_with_meta_information`), configuration validation
(`validate_config`) and the assets-directory reset (`prepare_environment`).

Python strings are modelled as `List Char`; `str.split(sep)` (non-empty
separator, all non-overlapping occurrences, left to right) is modelled by
`splitOnL`.  JSON values read from the configuration file are modelled by
`JVal`; Python dynamic-typing failures (`TypeError`, `IndexError`,
`ValueError`, `FileExistsError`) become explicit error constructors.
-/

namespace Scrapper

/-- When `sep` is a front segment of `s`, returns the remainder of `s`
after `sep`; `none` otherwise. -/
def chop? : List Char → List Char → Option (List Char)
  | [], s => some s
  | _ :: _, [] => none
  | x :: xs, y :: ys => if x = y then chop? xs ys else none

/-- Adds a character to the front of the first part of a split result. -/
def consHead (c : Char) : List (List Char) → List (List Char)
  | [] => [[c]]
  | p :: ps => (c :: p) :: ps

/-- Fuel-indexed worker for `splitOnL`; with fuel at least the length of the
input it computes the split of the input at every occurrence of `sep`. -/
def splitOnF (sep : List Char) : Nat → List Char → List (List Char)
  | _, [] => [[]]
  | 0, s => [s]
  | fuel + 1, c :: cs =>
    match chop? sep (c :: cs) with
    | some rest => [] :: splitOnF sep fuel rest
    | none => consHead c (splitOnF sep fuel cs)

/-- Model of Python `s.split(sep)` for a non-empty separator: the list of
segments of `s` between consecutive non-overlapping occurrences of `sep`,
found left to right. -/
def splitOnL (sep s : List Char) : List (List Char) :=
  splitOnF sep s.length s

/-- The bibliography marker of line 85 of the source, the literal
string `Литература` followed by a newline. -/
def markerL : List Char := ['Л', 'и', 'т', 'е', 'р', 'а', 'т', 'у', 'р', 'а', '\n']

/-- A single newline, the line separator of the scan region. -/
def newlineL : List Char := ['\n']

/-- The regular expression of line 88 (one or two digits followed by a
period, anchored at line start, MULTILINE) applied at the start of one line:
returns the matched characters, with the greedy two-digit alternative tried
first and backtracking to one digit, exactly as the Python engine does. -/
def lineRefMatch : List Char → Option (List Char)
  | c0 :: c1 :: c2 :: _ =>
    if c0.isDigit then
      if c1.isDigit then
        if c2 = '.' then some [c0, c1, c2] else none
      else if c1 = '.' then some [c0, c1] else none
    else none
  | [c0, c1] => if c0.isDigit && c1 = '.' then some [c0, c1] else none
  | _ => none

/-- Decimal value of a digit string, as computed by Python `int` on the
digit-only strings produced by `lineRefMatch`. -/
def digitsToNat (ds : List Char) : Nat :=
  ds.foldl (fun a c => 10 * a + (c.toNat - 48)) 0

/-- Line 90 of the source: `int(m.split('.')[0])` for a matched string `m`. -/
def lastSourceVal (m : List Char) : Nat :=
  digitsToNat ((splitOnL ['.'] m).headD [])

/-- Lines 88-93 of the source applied to the scan region `text_lst[1]`:
the reported number of sources, namely the leading number of the last line
of the region matching the reference pattern, and `0` when no line matches. -/
def refCountOfRegion (region : List Char) : Nat :=
  match ((splitOnL newlineL region).filterMap lineRefMatch).getLast? with
  | some m => lastSourceVal m
  | none => 0

/-- The greatest number prefixing any matching line of the scan region;
this is the quantity the specification says is reported. -/
def greatestRefNum (region : List Char) : Nat :=
  (((splitOnL newlineL region).filterMap lineRefMatch).map lastSourceVal).foldr max 0

/-- Observable outcome of `HTMLParser._fill_article_with_text`: the stored
article body and the printed number of sources. -/
structure FillResult where
  text : List Char
  refCount : Nat
deriving DecidableEq

/-- Lines 84-96 of the source, given the extracted PDF text: if the
bibliography marker occurs in the text, the body is the part before the
first occurrence and the scan region is `text_lst[1]`, the segment between
the first and second occurrences; otherwise the whole text is the body and
the count is zero.  (`marker in full_text` holds exactly when the split has
at least two parts.) -/
def fill_article_with_text (full_text : List Char) : FillResult :=
  match splitOnL markerL full_text with
  | p0 :: p1 :: _ => { text := p0, refCount := refCountOfRegion p1 }
  | _ => { text := full_text, refCount := 0 }

/-- One step of `Crawler._extract_url`'s loop body over the matching table
cells of one seed page.  A cell is `some href` when it holds an anchor with
an `href` attribute and `none` when it holds no anchor (in which case
`url_bs.find('a')['href']` on line 50 raises before the limit check of
line 51).  The `break` of line 52 returns the urls collected so far. -/
def extract_url (maxA : Nat) (hp : String) : List String → List (Option String) → Option (List String)
  | urls, [] => some urls
  | _, none :: _ => none
  | urls, some href :: rest =>
    if maxA ≤ urls.length then some urls
    else extract_url maxA hp (urls ++ [hp ++ href]) rest

/-- One iteration of `Crawler.find_articles` (lines 59-65): a failed fetch
(`not response.ok`) is skipped, a successful fetch feeds its matching cells
to `extract_url`, and an error raised there propagates. -/
def crawl_step (maxA : Nat) (hp : String)
    (acc : Option (List String)) (page : Option (List (Option String))) : Option (List String) :=
  match acc, page with
  | none, _ => none
  | some urls, none => some urls
  | some urls, some cells => extract_url maxA hp urls cells

/-- `Crawler.find_articles`: visit the seed pages in order starting from an
empty `self.urls`. -/
def find_articles (maxA : Nat) (hp : String)
    (pages : List (Option (List (Option String)))) : Option (List String) :=
  pages.foldl (crawl_step maxA hp) (some [])

/-- JSON values as produced by `json.load` for the configuration fields
(objects are not needed as field values here). -/
inductive JVal where
  | jstr (s : String) : JVal
  | jint (n : Int) : JVal
  | jbool (b : Bool) : JVal
  | jnull : JVal
  | jlist (xs : List JVal) : JVal

/-- Python truthiness, used by `if not seed_urls` on line 156. -/
def truthy : JVal → Bool
  | JVal.jstr s => s != ""
  | JVal.jint n => n != 0
  | JVal.jbool b => b
  | JVal.jnull => false
  | JVal.jlist xs => !xs.isEmpty

/-- Python `isinstance(v, int)` on line 158; a `bool` is a subclass of
`int`, so it passes. -/
def isInstInt : JVal → Bool
  | JVal.jint _ => true
  | JVal.jbool _ => true
  | _ => false

/-- Python `isinstance(v, list)` on line 160. -/
def isList : JVal → Bool
  | JVal.jlist _ => true
  | _ => false

/-- Numeric value used by the comparisons of lines 162-164; `True` counts
as `1` and `False` as `0`.  Only meaningful under `isInstInt`. -/
def intVal : JVal → Int
  | JVal.jint n => n
  | JVal.jbool b => if b then 1 else 0
  | _ => 0

/-- Iteration `for url in configuration["seed_urls"]` of line 148: lists
iterate over their elements, strings over their one-character substrings,
any other value raises `TypeError`. -/
def iterElems : JVal → Option (List JVal)
  | JVal.jlist xs => some xs
  | JVal.jstr s => some (s.data.map fun c => JVal.jstr (String.mk [c]))
  | _ => none

/-- Result of `validate_config`: the returned pair (raw JSON values of
`seed_urls` and `total_articles_to_find_and_parse`), one of the three
declared exceptions, or a Python `TypeError` raised by iterating a
non-iterable or by passing a non-string to `re.search`. -/
inductive VOutcome where
  | ok (seeds : JVal) (total : JVal) : VOutcome
  | urlError : VOutcome
  | numError : VOutcome
  | rangeError : VOutcome
  | typeError : VOutcome

/-- Body of the loop on lines 148-151: `re.search` demands a string
(`TypeError` otherwise) and the first element without a match raises
`IncorrectURLError`; `none` means the loop finished silently. -/
def loopCheck (m : String → Bool) : List JVal → Option VOutcome
  | [] => none
  | JVal.jstr s :: rest => if m s then loopCheck m rest else some VOutcome.urlError
  | _ :: _ => some VOutcome.typeError

/-- `validate_config` (lines 135-167) on a parsed configuration, given the
compiled `HTTP_PATTERN` match as `m` and the two relevant fields (`none`
when the key is absent).  The checks appear in source order: key presence
(lines 142-145), the URL loop (148-151), falsiness of `seed_urls` (156),
`isinstance(..., int)` (158), `isinstance(..., list)` (160), the positivity
check (162) and the range check (164). -/
def validate_config (m : String → Bool) (conf_seed conf_total : Option JVal) : VOutcome :=
  match conf_seed with
  | none => VOutcome.urlError
  | some seed =>
    match conf_total with
    | none => VOutcome.numError
    | some total =>
      match iterElems seed with
      | none => VOutcome.typeError
      | some elems =>
        match loopCheck m elems with
        | some e => e
        | none =>
          if !truthy seed then VOutcome.urlError
          else if !isInstInt total then VOutcome.numError
          else if !isList seed then VOutcome.urlError
          else if intVal total ≤ 0 then VOutcome.numError
          else if 200 < intVal total then VOutcome.rangeError
          else VOutcome.ok seed total

/-- Result of the page-count computation of lines 110-112. -/
inductive PageResult where
  | ok (n : Int) : PageResult
  | valueError : PageResult
  | indexError : PageResult
deriving DecidableEq

/-- Python `int()` on the strings arising from the page-range split:
a non-empty all-digit string parses to its value, anything else raises
`ValueError`. -/
def int_of_str? (s : List Char) : Option Int :=
  if s ≠ [] ∧ s.all Char.isDigit then some (digitsToNat s : Int) else none

/-- Lines 111-112 of the source applied to the page-range string
`node_pages`: split on the hyphen, convert every part with `int` (the first
failure raises `ValueError`), then read indices `1` and `0` (fewer than two
parts raise `IndexError`) and return `lst[1] - lst[0] + 1`. -/
def page_count_of (node_pages : List Char) : PageResult :=
  match (splitOnL ['-'] node_pages).mapM int_of_str? with
  | none => PageResult.valueError
  | some (l0 :: l1 :: _) => PageResult.ok (l1 - l0 + 1)
  | some _ => PageResult.indexError

/-- Line 110 followed by lines 111-112: the page-range string is the
stripped metadata text from character offset `11` on. -/
def meta_page_count (strippedMeta : List Char) : PageResult :=
  page_count_of (strippedMeta.drop 11)

/-- A filesystem entry at the assets path: a directory with some contents,
or a non-directory entry. -/
inductive FsEntry where
  | dir (contents : List String) : FsEntry
  | file : FsEntry
deriving DecidableEq

/-- Result of `prepare_environment`: the final entry at the path, or the
`FileExistsError` that `mkdir` raises when the path still exists. -/
inductive PrepResult where
  | ok (entry : Option FsEntry) : PrepResult
  | fileExistsError : PrepResult
deriving DecidableEq

/-- `prepare_environment` (lines 125-132) on the prior state of the assets
path (`none` when absent): `rmtree` removes the path only when it is a
directory, then `mkdir(parents=True)` creates it, raising `FileExistsError`
when the path still exists. -/
def prepare_environment (base : Option FsEntry) : PrepResult :=
  match (match base with
         | some (FsEntry.dir _) => none
         | st => st : Option FsEntry) with
  | none => PrepResult.ok (some (FsEntry.dir []))
  | some _ => PrepResult.fileExistsError

/-! ### Lemmas about `chop?` and `splitOnL` -/

theorem chop?_append (xs ys : List Char) : chop? xs (xs ++ ys) = some ys := by
  induction xs with
  | nil => rfl
  | cons x xs ih => simp [chop?, ih]

theorem chop?_some_length (xs : List Char) :
    ∀ (s r : List Char), chop? xs s = some r → s.length = xs.length + r.length := by
  induction xs with
  | nil =>
    intro s r h
    simp [chop?] at h
    simp [h]
  | cons x xs ih =>
    intro s r h
    cases s with
    | nil => simp [chop?] at h
    | cons y ys =>
      by_cases hxy : x = y
      · simp [chop?, hxy] at h
        have := ih ys r h
        simp [this]
        omega
      · simp [chop?, hxy] at h

theorem splitOnF_nil (sep : List Char) (fuel : Nat) : splitOnF sep fuel [] = [[]] := by
  cases fuel <;> rfl

theorem splitOnF_cons_some (sep : List Char) (f : Nat) (c : Char) (cs rest : List Char)
    (h : chop? sep (c :: cs) = some rest) :
    splitOnF sep (f + 1) (c :: cs) = [] :: splitOnF sep f rest := by
  simp only [splitOnF, h]

theorem splitOnF_cons_none (sep : List Char) (f : Nat) (c : Char) (cs : List Char)
    (h : chop? sep (c :: cs) = none) :
    splitOnF sep (f + 1) (c :: cs) = consHead c (splitOnF sep f cs) := by
  simp only [splitOnF, h]

theorem splitOnF_fuel (sep : List Char) (hsep : sep ≠ []) :
    ∀ (n fuel : Nat) (s : List Char), s.length ≤ fuel → fuel ≤ n →
      splitOnF sep fuel s = splitOnF sep s.length s := by
  intro n
  induction n with
  | zero =>
    intro fuel s h1 h2
    have hf : fuel = 0 := Nat.le_zero.mp h2
    subst hf
    have hs : s = [] := List.eq_nil_of_length_eq_zero (Nat.le_zero.mp h1)
    subst hs
    rfl
  | succ n ih =>
    intro fuel s h1 h2
    cases s with
    | nil => rw [splitOnF_nil, splitOnF_nil]
    | cons c cs =>
      have hsl : 1 ≤ sep.length := List.length_pos.mpr hsep
      simp only [List.length_cons] at h1 ⊢
      cases fuel with
      | zero => omega
      | succ f =>
        cases hchop : chop? sep (c :: cs) with
        | some rest =>
          have hlen := chop?_some_length sep (c :: cs) rest hchop
          simp only [List.length_cons] at hlen
          rw [splitOnF_cons_some sep f c cs rest hchop,
            splitOnF_cons_some sep cs.length c cs rest hchop,
            ih f rest (by omega) (by omega),
            ih cs.length rest (by omega) (by omega)]
        | none =>
          rw [splitOnF_cons_none sep f c cs hchop,
            splitOnF_cons_none sep cs.length c cs hchop,
            ih f cs (by omega) (by omega)]

theorem splitOnF_eq_splitOnL (sep : List Char) (hsep : sep ≠ []) (fuel : Nat)
    (s : List Char) (h : s.length ≤ fuel) : splitOnF sep fuel s = splitOnL sep s :=
  splitOnF_fuel sep hsep fuel fuel s h (Nat.le_refl fuel)

theorem splitOnF_append (sep b : List Char) (hsep : sep ≠ []) :
    ∀ (a : List Char) (fuel : Nat), (a ++ sep ++ b).length ≤ fuel →
      (∀ i, i < a.length → chop? sep (List.drop i (a ++ sep ++ b)) = none) →
      splitOnF sep fuel (a ++ sep ++ b) = a :: splitOnL sep b := by
  intro a
  induction a with
  | nil =>
    intro fuel hf _
    cases sep with
    | nil => exact absurd rfl hsep
    | cons s0 ss =>
      simp only [List.nil_append, List.length_append, List.length_cons] at hf
      rw [List.nil_append]
      cases fuel with
      | zero => omega
      | succ f =>
        rw [List.cons_append]
        rw [splitOnF_cons_some (s0 :: ss) f s0 (ss ++ b) b (chop?_append (s0 :: ss) b)]
        rw [splitOnF_eq_splitOnL (s0 :: ss) hsep f b (by omega)]
  | cons c a' ih =>
    intro fuel hf ha
    have h0 : chop? sep (c :: (a' ++ sep ++ b)) = none := by
      have h := ha 0 (by simp)
      simpa using h
    have hf' : (a' ++ sep ++ b).length + 1 ≤ fuel := by
      simpa [List.length_append] using hf
    have ha' : ∀ i, i < a'.length → chop? sep (List.drop i (a' ++ sep ++ b)) = none := by
      intro i hi
      have h := ha (i + 1) (by simp only [List.length_cons]; omega)
      simpa [List.cons_append] using h
    cases fuel with
    | zero => omega
    | succ f =>
      rw [show (c :: a') ++ sep ++ b = c :: (a' ++ sep ++ b) by simp]
      rw [splitOnF_cons_none sep f c (a' ++ sep ++ b) h0]
      rw [ih f (by omega) ha']
      rfl

theorem splitOnL_append (sep a b : List Char) (hsep : sep ≠ [])
    (ha : ∀ i, i < a.length → chop? sep (List.drop i (a ++ sep ++ b)) = none) :
    splitOnL sep (a ++ sep ++ b) = a :: splitOnL sep b :=
  splitOnF_append sep b hsep a (a ++ sep ++ b).length (Nat.le_refl _) ha

theorem splitOnF_no_occur (sep : List Char) :
    ∀ (s : List Char) (fuel : Nat), s.length ≤ fuel →
      (∀ i, i < s.length → chop? sep (List.drop i s) = none) →
      splitOnF sep fuel s = [s] := by
  intro s
  induction s with
  | nil => intro fuel _ _; exact splitOnF_nil sep fuel
  | cons c cs ih =>
    intro fuel hf h
    have h0 : chop? sep (c :: cs) = none := by
      have hx := h 0 (by simp)
      simpa using hx
    have h' : ∀ i, i < cs.length → chop? sep (List.drop i cs) = none := by
      intro i hi
      have hx := h (i + 1) (by simp only [List.length_cons]; omega)
      simpa using hx
    simp only [List.length_cons] at hf
    cases fuel with
    | zero => omega
    | succ f =>
      rw [splitOnF_cons_none sep f c cs h0, ih f (by omega) h']
      rfl

theorem splitOnL_no_occur (sep s : List Char)
    (h : ∀ i, i < s.length → chop? sep (List.drop i s) = none) :
    splitOnL sep s = [s] :=
  splitOnF_no_occur sep s s.length (Nat.le_refl _) h

theorem consHead_ne_nil (c : Char) (ps : List (List Char)) : consHead c ps ≠ [] := by
  cases ps <;> simp [consHead]

theorem splitOnF_ne_nil (sep : List Char) :
    ∀ (fuel : Nat) (s : List Char), splitOnF sep fuel s ≠ [] := by
  intro fuel
  induction fuel with
  | zero => intro s; cases s <;> simp [splitOnF]
  | succ f ih =>
    intro s
    cases s with
    | nil => simp [splitOnF]
    | cons c cs =>
      simp only [splitOnF]
      cases chop? sep (c :: cs) with
      | some rest => simp
      | none => exact consHead_ne_nil c _

theorem splitOnL_ne_nil (sep s : List Char) : splitOnL sep s ≠ [] :=
  splitOnF_ne_nil sep s.length s

/-! ### Single-character separators -/

theorem drop_head_mem (l : List Char) :
    ∀ i, i < l.length → ∃ c t, c ∈ l ∧ List.drop i l = c :: t := by
  induction l with
  | nil => intro i hi; simp at hi
  | cons x xs ih =>
    intro i hi
    cases i with
    | zero => exact ⟨x, xs, by simp⟩
    | succ j =>
      obtain ⟨c, t, hc, ht⟩ := ih j (by simpa using Nat.lt_of_succ_lt_succ hi)
      exact ⟨c, t, by simp [hc], by simpa using ht⟩

theorem chop?_single_ne (d c : Char) (t : List Char) (h : c ≠ d) :
    chop? [d] (c :: t) = none := by
  simp only [chop?]
  rw [if_neg (fun he => h he.symm)]

theorem splitOnL_single_append (d : Char) (a b : List Char) (hd : d ∉ a) :
    splitOnL [d] (a ++ d :: b) = a :: splitOnL [d] b := by
  have he : a ++ d :: b = a ++ [d] ++ b := by simp
  rw [he]
  apply splitOnL_append [d] a b (by simp)
  intro i hi
  rw [List.append_assoc, List.drop_append_of_le_length (Nat.le_of_lt hi)]
  obtain ⟨c, t, hc, ht⟩ := drop_head_mem a i hi
  rw [ht]
  exact chop?_single_ne d c _ (fun hce => hd (hce ▸ hc))

theorem splitOnL_single_no (d : Char) (s : List Char) (hd : d ∉ s) :
    splitOnL [d] s = [s] := by
  apply splitOnL_no_occur
  intro i hi
  obtain ⟨c, t, hc, ht⟩ := drop_head_mem s i hi
  rw [ht]
  exact chop?_single_ne d c _ (fun he => hd (he ▸ hc))

/-! ### Lemmas about the crawler -/

theorem extract_url_map_some (N : Nat) (hp : String) :
    ∀ (cells urls : List String),
      extract_url N hp urls (cells.map some)
        = some (urls ++ ((cells.map fun u => hp ++ u).take (N - urls.length))) := by
  intro cells
  induction cells with
  | nil => intro urls; simp [extract_url]
  | cons c rest ih =>
    intro urls
    simp only [List.map_cons, extract_url]
    by_cases h : N ≤ urls.length
    · rw [if_pos h, Nat.sub_eq_zero_of_le h]
      simp
    · rw [if_neg h, ih (urls ++ [hp ++ c])]
      have hlen : N - urls.length = (N - (urls ++ [hp ++ c]).length) + 1 := by
        simp only [List.length_append, List.length_cons, List.length_nil]
        omega
      rw [hlen, List.take_succ_cons, List.append_assoc]
      rfl

theorem find_articles_aux (N : Nat) (hp : String) :
    ∀ (pages : List (Option (List String))) (urls : List String),
      List.foldl (crawl_step N hp) (some urls) (pages.map (Option.map (List.map some)))
        = some (urls ++ (((pages.filterMap id).flatten.map fun u => hp ++ u).take (N - urls.length))) := by
  intro pages
  induction pages with
  | nil => intro urls; simp
  | cons p rest ih =>
    intro urls
    cases p with
    | none =>
      simp only [List.map_cons, Option.map_none', List.foldl_cons, crawl_step]
      rw [ih urls]
      simp
    | some cells =>
      simp only [List.map_cons, Option.map_some', List.foldl_cons, crawl_step]
      rw [extract_url_map_some, ih]
      have hfm : List.filterMap id (some cells :: rest) = cells :: List.filterMap id rest := by
        simp
      rw [hfm, List.flatten_cons, List.map_append, List.take_append_eq_append_take]
      simp only [List.append_assoc, List.length_append, List.length_take, List.length_map,
        Option.some.injEq, List.append_cancel_left_eq]
      have hidx : N - (urls.length + min (N - urls.length) cells.length)
          = N - urls.length - cells.length := by omega
      rw [hidx]

/-- Claim C1: for every limit `N` and every sequence of seed pages (failed
fetches marked `none`) all of whose candidate cells hold anchor links,
`find_articles` collects exactly the first `min M N` links in encounter
order, `M` being the total number of candidate links on the successfully
fetched pages; the prefix `hp` (`HTTP_PATTERN`) is prepended to each. -/
theorem find_articles_limit (N : Nat) (hp : String) (pages : List (Option (List String))) :
    find_articles N hp (pages.map (Option.map (List.map some)))
      = some (((pages.filterMap id).flatten.map fun u => hp ++ u).take N)
    ∧ (((pages.filterMap id).flatten.map fun u => hp ++ u).take N).length
      = min ((pages.filterMap id).flatten.length) N := by
  constructor
  · have h := find_articles_aux N hp pages []
    simpa [find_articles] using h
  · rw [List.length_take, List.length_map, Nat.min_comm]

/-- Claim C10: a matching table cell with no anchor makes `_extract_url`
raise (modelled as `none`) even when the collected urls already reached the
limit, because `url_bs.find('a')['href']` is evaluated before the limit
check. -/
theorem extract_url_anchorless_cell (N : Nat) (hp : String) (urls : List String)
    (rest : List (Option String)) (_h : N ≤ urls.length) :
    extract_url N hp urls (none :: rest) = none := by
  simp [extract_url]

/-- Witness for C10 at a concrete state: one url already collected with
limit `1`, and a first cell without an anchor. -/
theorem extract_url_anchorless_cell_witness :
    1 ≤ ["hu"].length ∧ extract_url 1 "h" ["hu"] [none] = none :=
  ⟨by decide, extract_url_anchorless_cell 1 "h" ["hu"] [] (by decide)⟩

/-! ### Body and bibliography splitting -/

/-- A list of naturals is nondecreasing from left to right. -/
def nondecreasing : List Nat → Bool
  | [] => true
  | [_] => true
  | x :: y :: t => (decide (x ≤ y)) && nondecreasing (y :: t)

theorem nondecreasing_getLast_eq_max (l : List Nat) :
    nondecreasing l = true → l ≠ [] → l.getLast? = some (l.foldr max 0) := by
  induction l with
  | nil => intro _ h; exact absurd rfl h
  | cons x t ih =>
    intro hc _
    cases t with
    | nil => simp
    | cons y t' =>
      simp only [nondecreasing, Bool.and_eq_true, decide_eq_true_eq] at hc
      rw [List.getLast?_cons_cons, ih hc.2 (by simp)]
      have hx : x ≤ List.foldr max 0 (y :: t') := by
        have h1 : y ≤ List.foldr max 0 (y :: t') := by
          simp only [List.foldr_cons]
          exact Nat.le_max_left y _
        exact le_trans hc.1 h1
      simp only [List.foldr_cons] at hx ⊢
      rw [Nat.max_eq_right hx]

theorem refCountOfRegion_getLast_some (region m : List Char)
    (h : ((splitOnL newlineL region).filterMap lineRefMatch).getLast? = some m) :
    refCountOfRegion region = lastSourceVal m := by
  simp only [refCountOfRegion, h]

theorem refCountOfRegion_eq_greatest (region : List Char)
    (hne : (splitOnL newlineL region).filterMap lineRefMatch ≠ [])
    (hchain : nondecreasing
      (((splitOnL newlineL region).filterMap lineRefMatch).map lastSourceVal) = true) :
    refCountOfRegion region = greatestRefNum region := by
  have hlast := nondecreasing_getLast_eq_max
    (((splitOnL newlineL region).filterMap lineRefMatch).map lastSourceVal) hchain
    (by simpa using hne)
  have hmap : (((splitOnL newlineL region).filterMap lineRefMatch).map lastSourceVal).getLast?
      = Option.map lastSourceVal ((splitOnL newlineL region).filterMap lineRefMatch).getLast? :=
    List.getLast?_map _ _
  cases hl : ((splitOnL newlineL region).filterMap lineRefMatch).getLast? with
  | none =>
    exfalso
    rw [hl, hlast] at hmap
    simp at hmap
  | some m =>
    rw [refCountOfRegion_getLast_some region m hl, greatestRefNum]
    rw [hl, hlast] at hmap
    simp only [Option.map_some'] at hmap
    exact (Option.some.inj hmap).symm

/-- Claim C2 counterexample: when the marker occurs twice, the region the
code scans is only the segment between the first and second occurrences,
not everything after the first occurrence.  Here the text after the first
occurrence would yield reference count `2`, but the code reports `1`. -/
theorem fill_text_second_marker_cex :
    (fill_article_with_text
        (['A', '\n'] ++ markerL ++ (['1', '.', '\n'] ++ markerL ++ ['2', '.', '\n']))).refCount = 1
    ∧ refCountOfRegion (['1', '.', '\n'] ++ markerL ++ ['2', '.', '\n']) = 2
    ∧ (fill_article_with_text
        (['A', '\n'] ++ markerL ++ (['1', '.', '\n'] ++ markerL ++ ['2', '.', '\n']))).refCount
      ≠ refCountOfRegion (['1', '.', '\n'] ++ markerL ++ ['2', '.', '\n']) := by
  decide

/-- Claim C2 (amended): when the first occurrence of the marker in the
extracted text is at the end of `a` (no occurrence starts inside `a`), the
article body is exactly `a` and the line-scanned region is the segment of
the remainder `b` up to the next occurrence of the marker — the whole of
`b` when the marker occurs only once. -/
theorem fill_text_between_markers (a b : List Char)
    (ha : ∀ i, i < a.length → chop? markerL (List.drop i (a ++ markerL ++ b)) = none) :
    fill_article_with_text (a ++ markerL ++ b)
      = { text := a, refCount := refCountOfRegion ((splitOnL markerL b).headD []) } := by
  have hsp := splitOnL_append markerL a b (by decide) ha
  obtain ⟨h0, t, hsplit⟩ := List.exists_cons_of_ne_nil (splitOnL_ne_nil markerL b)
  simp only [fill_article_with_text, hsp, hsplit, List.headD_cons]

/-- Witness for C2 (amended) at a concrete text with a single marker
occurrence. -/
theorem fill_text_between_markers_witness :
    (∀ i, i < (['A'] : List Char).length →
      chop? markerL (List.drop i (['A'] ++ markerL ++ ['1', '.'])) = none)
    ∧ fill_article_with_text (['A'] ++ markerL ++ ['1', '.'])
        = { text := ['A'], refCount := refCountOfRegion ((splitOnL markerL ['1', '.']).headD []) } :=
  ⟨by decide, fill_text_between_markers ['A'] ['1', '.'] (by decide)⟩

/-- Claim C7: when the marker does not occur in the extracted text, the
whole text is stored as the body and the reported reference count is 0. -/
theorem fill_text_no_marker (ft : List Char)
    (h : ∀ i, i < ft.length → chop? markerL (List.drop i ft) = none) :
    fill_article_with_text ft = { text := ft, refCount := 0 } := by
  have hsp := splitOnL_no_occur markerL ft h
  simp only [fill_article_with_text, hsp]

/-- Witness for C7 on a concrete marker-free text. -/
theorem fill_text_no_marker_witness :
    (∀ i, i < (['h', 'i'] : List Char).length →
      chop? markerL (List.drop i ['h', 'i']) = none)
    ∧ fill_article_with_text ['h', 'i'] = { text := ['h', 'i'], refCount := 0 } :=
  ⟨by decide, fill_text_no_marker ['h', 'i'] (by decide)⟩

/-- Claim C3 counterexample: for scan region `2.\n1.` the last matching
line's number is `1`, which the code reports, while the greatest number
prefixing a matching line is `2`. -/
theorem ref_count_not_greatest_cex :
    (fill_article_with_text (markerL ++ ['2', '.', '\n', '1', '.'])).refCount = 1
    ∧ greatestRefNum ['2', '.', '\n', '1', '.'] = 2
    ∧ (fill_article_with_text (markerL ++ ['2', '.', '\n', '1', '.'])).refCount
      ≠ greatestRefNum ['2', '.', '\n', '1', '.'] := by
  decide

/-- Claim C3 (amended): the reported reference count is the leading number
of the last matching line of the scan region; when the matched numbers are
nondecreasing in order of appearance (as in an ordered bibliography) and at
least one line matches, this equals the greatest number prefixing any
matching line. -/
theorem ref_count_greatest_of_monotone (region : List Char)
    (hmark : ∀ i, i < region.length → chop? markerL (List.drop i region) = none)
    (hne : (splitOnL newlineL region).filterMap lineRefMatch ≠ [])
    (hchain : nondecreasing
      (((splitOnL newlineL region).filterMap lineRefMatch).map lastSourceVal) = true) :
    (fill_article_with_text (markerL ++ region)).refCount = greatestRefNum region := by
  have hsp := splitOnL_append markerL [] region (by decide)
    (fun i hi => absurd hi (by simp))
  have hsp' : splitOnL markerL (markerL ++ region) = [] :: splitOnL markerL region := by
    simpa using hsp
  have hreg := splitOnL_no_occur markerL region hmark
  have hfill : (fill_article_with_text (markerL ++ region)).refCount = refCountOfRegion region := by
    simp only [fill_article_with_text, hsp', hreg]
  rw [hfill]
  exact refCountOfRegion_eq_greatest region hne hchain

/-- Witness for C3 (amended) on the scan region `1.\n12.`, an ordered
two-entry bibliography. -/
theorem ref_count_greatest_of_monotone_witness :
    (∀ i, i < (['1', '.', '\n', '1', '2', '.'] : List Char).length →
      chop? markerL (List.drop i ['1', '.', '\n', '1', '2', '.']) = none)
    ∧ (splitOnL newlineL ['1', '.', '\n', '1', '2', '.']).filterMap lineRefMatch ≠ []
    ∧ nondecreasing
        (((splitOnL newlineL ['1', '.', '\n', '1', '2', '.']).filterMap lineRefMatch).map lastSourceVal)
        = true
    ∧ (fill_article_with_text (markerL ++ ['1', '.', '\n', '1', '2', '.'])).refCount
        = greatestRefNum ['1', '.', '\n', '1', '2', '.'] :=
  ⟨by decide, by decide, by decide,
    ref_count_greatest_of_monotone ['1', '.', '\n', '1', '2', '.']
      (by decide) (by decide) (by decide)⟩

/-! ### Configuration validation -/

theorem loopCheck_map (m : String → Bool) :
    ∀ ss : List String, loopCheck m (ss.map JVal.jstr)
      = if ss.all (fun s => m s) then none else some VOutcome.urlError := by
  intro ss
  induction ss with
  | nil => rfl
  | cons s rest ih =>
    simp only [List.map_cons, loopCheck, List.all_cons]
    by_cases hms : m s = true
    · simp [hms, ih]
    · simp only [Bool.not_eq_true] at hms
      simp [hms]

theorem validate_config_valid_seed (m : String → Bool) (ss : List String) (tv : JVal)
    (hne : ss ≠ []) (hall : ∀ s ∈ ss, m s = true) :
    validate_config m (some (JVal.jlist (ss.map JVal.jstr))) (some tv)
      = if isInstInt tv = false then VOutcome.numError
        else if intVal tv ≤ 0 then VOutcome.numError
        else if 200 < intVal tv then VOutcome.rangeError
        else VOutcome.ok (JVal.jlist (ss.map JVal.jstr)) tv := by
  have hall' : ss.all (fun s => m s) = true :=
    List.all_eq_true.mpr (fun x hx => hall x hx)
  cases tv <;>
    simp [validate_config, iterElems, loopCheck_map, hall', truthy, isList, isInstInt,
      intVal, List.isEmpty_iff, List.map_eq_nil_iff, hne]

/-- Claim C4 counterexample: a non-sequence (non-iterable) seed value such
as the integer `5` makes `validate_config` raise a Python `TypeError` at
the `for` loop of line 148, not `IncorrectURLError` (the
`isinstance(seed_urls, list)` check of line 160 comes after the loop). -/
theorem validate_config_nonlist_cex :
    validate_config (fun _ => true) (some (JVal.jint 5)) (some (JVal.jint 10))
      ≠ VOutcome.urlError
    ∧ validate_config (fun _ => true) (some (JVal.jint 5)) (some (JVal.jint 10))
      = VOutcome.typeError :=
  ⟨fun h => VOutcome.noConfusion h, rfl⟩

/-- Claim C4 (amended): `validate_config` raises `IncorrectURLError` when
the seed field is absent; for a present article-count field and a seed
value that is a list of strings, it raises `IncorrectURLError` exactly when
the list is empty or some entry fails the pattern match; a non-iterable
seed value (an integer) raises `TypeError` instead, and an absent
article-count field raises `IncorrectNumberOfArticlesError` before any seed
content is inspected. -/
theorem validate_config_url_error_cases (m : String → Bool) (t : Option JVal)
    (ss : List String) (tv : JVal) (n : Int) :
    validate_config m none t = VOutcome.urlError
    ∧ (validate_config m (some (JVal.jlist (ss.map JVal.jstr))) (some tv) = VOutcome.urlError
        ↔ (ss = [] ∨ ∃ s ∈ ss, m s = false))
    ∧ validate_config m (some (JVal.jint n)) (some tv) = VOutcome.typeError := by
  refine ⟨rfl, ?_, rfl⟩
  by_cases hall : ∀ s ∈ ss, m s = true
  · rcases eq_or_ne ss [] with rfl | hne
    · exact ⟨fun _ => Or.inl rfl, fun _ => rfl⟩
    · rw [validate_config_valid_seed m ss tv hne hall]
      constructor
      · intro h
        split_ifs at h
      · rintro (rfl | ⟨s, hs, hms⟩)
        · exact absurd rfl hne
        · exact absurd (hall s hs) (by simp [hms])
  · push_neg at hall
    obtain ⟨s, hs, hms⟩ := hall
    have hms' : m s = false := by
      cases hmb : m s with
      | false => rfl
      | true => exact absurd hmb hms
    have hloop : loopCheck m (ss.map JVal.jstr) = some VOutcome.urlError := by
      rw [loopCheck_map]
      cases hb : ss.all (fun x => m x) with
      | false => simp
      | true => exact absurd (List.all_eq_true.mp hb s hs) (by simp [hms'])
    constructor
    · exact fun _ => Or.inr ⟨s, hs, hms'⟩
    · intro _
      simp only [validate_config, iterElems, hloop]

/-- Claim C5: with a validating seed list, the article-count checks behave
as specified: an absent, non-integer (in the Python `isinstance` sense,
which admits booleans) or nonpositive count raises
`IncorrectNumberOfArticlesError`, a count above 200 raises
`NumberOfArticlesOutOfRangeError`, and otherwise the pair of raw field
values is returned with the count in (0, 200]. -/
theorem validate_config_count_checks (m : String → Bool) (ss : List String) (tv : JVal)
    (hne : ss ≠ []) (hall : ∀ s ∈ ss, m s = true) :
    validate_config m (some (JVal.jlist (ss.map JVal.jstr))) none = VOutcome.numError
    ∧ (validate_config m (some (JVal.jlist (ss.map JVal.jstr))) (some tv) = VOutcome.numError
        ↔ (isInstInt tv = false ∨ intVal tv ≤ 0))
    ∧ (validate_config m (some (JVal.jlist (ss.map JVal.jstr))) (some tv) = VOutcome.rangeError
        ↔ (isInstInt tv = true ∧ 200 < intVal tv))
    ∧ (isInstInt tv = true → 0 < intVal tv → intVal tv ≤ 200 →
        validate_config m (some (JVal.jlist (ss.map JVal.jstr))) (some tv)
          = VOutcome.ok (JVal.jlist (ss.map JVal.jstr)) tv) := by
  refine ⟨rfl, ?_, ?_, ?_⟩
  · rw [validate_config_valid_seed m ss tv hne hall]
    constructor
    · intro h
      split_ifs at h with h1 h2
      · exact Or.inl h1
      · exact Or.inr h2
    · rintro (h1 | h2)
      · rw [if_pos h1]
      · split_ifs <;> rfl
  · rw [validate_config_valid_seed m ss tv hne hall]
    constructor
    · intro h
      split_ifs at h with h1 h2 h3
      refine ⟨?_, h3⟩
      cases hb : isInstInt tv with
      | false => exact absurd hb h1
      | true => rfl
    · rintro ⟨h1, h2⟩
      rw [if_neg (by simp [h1]), if_neg (by omega), if_pos h2]
  · intro hint hpos hle
    rw [validate_config_valid_seed m ss tv hne hall,
      if_neg (by simp [hint]), if_neg (by omega), if_neg (by omega)]

/-- Witness for C5 with one matching seed and the count `5`. -/
theorem validate_config_count_checks_witness :
    (["https://u"] : List String) ≠ []
    ∧ (∀ s ∈ (["https://u"] : List String), (fun _ => true) s = true)
    ∧ (validate_config (fun _ => true) (some (JVal.jlist (["https://u"].map JVal.jstr))) none
        = VOutcome.numError
      ∧ (validate_config (fun _ => true) (some (JVal.jlist (["https://u"].map JVal.jstr)))
            (some (JVal.jint 5)) = VOutcome.numError
          ↔ (isInstInt (JVal.jint 5) = false ∨ intVal (JVal.jint 5) ≤ 0))
      ∧ (validate_config (fun _ => true) (some (JVal.jlist (["https://u"].map JVal.jstr)))
            (some (JVal.jint 5)) = VOutcome.rangeError
          ↔ (isInstInt (JVal.jint 5) = true ∧ 200 < intVal (JVal.jint 5)))
      ∧ (isInstInt (JVal.jint 5) = true → 0 < intVal (JVal.jint 5) → intVal (JVal.jint 5) ≤ 200 →
          validate_config (fun _ => true) (some (JVal.jlist (["https://u"].map JVal.jstr)))
              (some (JVal.jint 5))
            = VOutcome.ok (JVal.jlist (["https://u"].map JVal.jstr)) (JVal.jint 5))) :=
  ⟨by decide, by decide,
    validate_config_count_checks (fun _ => true) ["https://u"] (JVal.jint 5)
      (by decide) (by decide)⟩

/-- Claim C9: a boolean `True` article count passes the `isinstance` check
(Python booleans are integers) and the range checks, so `validate_config`
returns `True` as the limit, which behaves as the limit 1. -/
theorem validate_config_true_limit (m : String → Bool) (ss : List String)
    (hne : ss ≠ []) (hall : ∀ s ∈ ss, m s = true) :
    validate_config m (some (JVal.jlist (ss.map JVal.jstr))) (some (JVal.jbool true))
      = VOutcome.ok (JVal.jlist (ss.map JVal.jstr)) (JVal.jbool true)
    ∧ intVal (JVal.jbool true) = 1 := by
  refine ⟨?_, rfl⟩
  rw [validate_config_valid_seed m ss (JVal.jbool true) hne hall]
  rfl

/-- Witness for C9 with one matching seed. -/
theorem validate_config_true_limit_witness :
    (["https://u"] : List String) ≠ []
    ∧ (∀ s ∈ (["https://u"] : List String), (fun _ => true) s = true)
    ∧ (validate_config (fun _ => true) (some (JVal.jlist (["https://u"].map JVal.jstr)))
          (some (JVal.jbool true))
        = VOutcome.ok (JVal.jlist (["https://u"].map JVal.jstr)) (JVal.jbool true)
      ∧ intVal (JVal.jbool true) = 1) :=
  ⟨by decide, by decide,
    validate_config_true_limit (fun _ => true) ["https://u"] (by decide) (by decide)⟩

/-! ### Page-count derivation and the assets directory -/

/-- Claim C6: a page-range substring `a-b` with non-empty digit components
yields the page count `b - a + 1`, and a page-range substring with no
hyphen never yields a page count (the single component makes `lst[1]` an
out-of-range index, or `int` fails first). -/
theorem page_count_hyphen_split (pre pre2 as bs s : List Char)
    (hpre : pre.length = 11) (hpre2 : pre2.length = 11)
    (hasne : as ≠ []) (hasd : as.all Char.isDigit = true)
    (hbsne : bs ≠ []) (hbsd : bs.all Char.isDigit = true)
    (hs : '-' ∉ s) :
    meta_page_count (pre ++ (as ++ '-' :: bs))
        = PageResult.ok ((digitsToNat bs : Int) - (digitsToNat as : Int) + 1)
    ∧ ∀ v, meta_page_count (pre2 ++ s) ≠ PageResult.ok v := by
  constructor
  · have hdrop : (pre ++ (as ++ '-' :: bs)).drop 11 = as ++ '-' :: bs := by
      rw [← hpre]
      exact List.drop_left pre _
    have hnotm : ('-' : Char) ∉ as := by
      intro hmem
      exact absurd (List.all_eq_true.mp hasd '-' hmem) (by decide)
    have hnotmb : ('-' : Char) ∉ bs := by
      intro hmem
      exact absurd (List.all_eq_true.mp hbsd '-' hmem) (by decide)
    have hia : int_of_str? as = some (digitsToNat as : Int) := by
      simp [int_of_str?, hasne, hasd]
    have hib : int_of_str? bs = some (digitsToNat bs : Int) := by
      simp [int_of_str?, hbsne, hbsd]
    simp only [meta_page_count, hdrop, page_count_of,
      splitOnL_single_append '-' as bs hnotm, splitOnL_single_no '-' bs hnotmb]
    simp [List.mapM, List.mapM.loop, hia, hib]
  · intro v
    have hdrop2 : (pre2 ++ s).drop 11 = s := by
      rw [← hpre2]
      exact List.drop_left pre2 s
    simp only [meta_page_count, hdrop2, page_count_of, splitOnL_single_no '-' s hs]
    cases hi : int_of_str? s with
    | none => simp [List.mapM, List.mapM.loop, hi]
    | some w => simp [List.mapM, List.mapM.loop, hi]

/-- Witness for C6: the specification's example `123-145` yields the page
count `23`, and the hyphen-free string `123145` yields no page count. -/
theorem page_count_hyphen_split_witness :
    (['x', 'x', 'x', 'x', 'x', 'x', 'x', 'x', 'x', 'x', 'x'] : List Char).length = 11
    ∧ (['1', '2', '3'] : List Char) ≠ []
    ∧ (['1', '2', '3'] : List Char).all Char.isDigit = true
    ∧ meta_page_count (['x', 'x', 'x', 'x', 'x', 'x', 'x', 'x', 'x', 'x', 'x']
          ++ (['1', '2', '3'] ++ '-' :: ['1', '4', '5'])) = PageResult.ok 23
    ∧ (∀ v, meta_page_count (['x', 'x', 'x', 'x', 'x', 'x', 'x', 'x', 'x', 'x', 'x']
          ++ ['1', '2', '3', '1', '4', '5']) ≠ PageResult.ok v) := by
  have h := page_count_hyphen_split
    ['x', 'x', 'x', 'x', 'x', 'x', 'x', 'x', 'x', 'x', 'x']
    ['x', 'x', 'x', 'x', 'x', 'x', 'x', 'x', 'x', 'x', 'x']
    ['1', '2', '3'] ['1', '4', '5'] ['1', '2', '3', '1', '4', '5']
    (by decide) (by decide) (by decide) (by decide) (by decide) (by decide) (by decide)
  exact ⟨by decide, by decide, by decide, by simpa using h.1, h.2⟩

/-- Claim C8 counterexample: when the assets path exists but is not a
directory, `rmtree` is skipped and `mkdir` raises `FileExistsError`, so the
reset is not idempotent across all prior states. -/
theorem prepare_environment_file_cex :
    prepare_environment (some FsEntry.file) = PrepResult.fileExistsError
    ∧ prepare_environment (some FsEntry.file) ≠ PrepResult.ok (some (FsEntry.dir [])) := by
  decide

/-- Claim C8 (amended): for an absent path or an existing directory with
any contents, `prepare_environment` terminates normally leaving a fresh
empty directory; for an existing non-directory entry it raises
`FileExistsError` from `mkdir`, because `rmtree` only removes
directories. -/
theorem prepare_environment_reset (c : List String) :
    prepare_environment none = PrepResult.ok (some (FsEntry.dir []))
    ∧ prepare_environment (some (FsEntry.dir c)) = PrepResult.ok (some (FsEntry.dir []))
    ∧ prepare_environment (some FsEntry.file) = PrepResult.fileExistsError :=
  ⟨rfl, rfl, rfl⟩

end Scrapper
